import Mathlib

/-!
Shallow embedding of `evaluation/evaluation.py` (CoNLL-U dependency-parsing
evaluation script).  Python strings are modelled as `List Char`, Python `int`
as `Int`, Python `None`-able values as `Option`, Python dictionaries with
insertion order as association lists, and fallible code as `Except String`
(the error string names the Python exception class raised).
-/

/-- Python strings, modelled as lists of unicode scalar values. -/
abbrev Str : Type := List Char

/-- The CoNLL-U absence sentinel field "_". -/
def und : Str := ['_']

/-- Embeds the class `Word` (evaluation.py lines 5-43).  The Python object
stores whatever keyword fields the constructor received; every `Word` built
by this program (in `extract_tokens` line 111 and `get_head_from_id`
line 248) has all ten attributes present, with `None` for absent values, so
one `Option` level per field is a faithful model.  `lemma` is a reserved
word in Mathlib, hence the field name `lemm`. -/
structure Word where
  id : Int
  form : Option Str
  lemm : Option Str
  upos : Option Str
  xpos : Option Str
  feats : Option (List (Str × Str))
  head : Option Int
  deprel : Option Str
  deps : Option Str
  misc : Option (List (Str × Str))
deriving DecidableEq, Repr, Inhabited

/-- `Word.__eq__` (lines 26-37): two words compare equal iff their `form`
fields are equal (`None == None` counts as equal). -/
def formEq (a b : Word) : Bool := decide (a.form = b.form)

/-- Python `==` on two values that are each either a `Word` or `None`
(used on the results of `get_head_from_id` at line 354): `None` equals only
`None`; two words compare by `Word.__eq__`. -/
def optWordEq (a b : Option Word) : Bool :=
  match a, b with
  | none, none => true
  | some x, some y => formEq x y
  | _, _ => false

/-- Python `str.split(sep)` for a one-character separator: splits into the
(nonempty) list of chunks between occurrences of `sep`. -/
def splitChar (sep : Char) : Str → List Str
  | [] => [[]]
  | c :: rest =>
    if c = sep then [] :: splitChar sep rest
    else
      match splitChar sep rest with
      | r :: rs => (c :: r) :: rs
      | [] => [[c]]

/-- Numeric value of a digit string. -/
def digitsVal (ds : Str) : Int :=
  ds.foldl (fun a c => a * 10 + ((c.toNat : Int) - ('0'.toNat : Int))) 0

/-- Python `int(s)` on a string: strips surrounding whitespace, accepts an
optional sign followed by a nonempty run of ASCII digits, raises
`ValueError` (here: `none`) otherwise.  (Underscore digit grouping, which
never occurs in the inputs this program reads, is not modelled.) -/
def parsePyInt (s : Str) : Option Int :=
  let t := ((s.dropWhile Char.isWhitespace).reverse.dropWhile Char.isWhitespace).reverse
  match t with
  | '-' :: ds => if ds ≠ [] ∧ ∀ c ∈ ds, c.isDigit then some (-(digitsVal ds)) else none
  | '+' :: ds => if ds ≠ [] ∧ ∀ c ∈ ds, c.isDigit then some (digitsVal ds) else none
  | ds => if ds ≠ [] ∧ ∀ c ∈ ds, c.isDigit then some (digitsVal ds) else none

/-- `re.search('^[0-9]+\t', line)` (lines 61, 70): the line starts with one
or more digits immediately followed by a tab.  Because a tab is not a digit,
this holds iff the maximal digit prefix is nonempty and is followed by a
tab. -/
def regex_id_match (s : Str) : Bool :=
  let d := s.takeWhile Char.isDigit
  !d.isEmpty && decide ((s.drop d.length).head? = some '\t')

/-- Python dict assignment `m[key] = value` on an insertion-ordered
dictionary modelled as an association list: overwrite in place if the key
exists, else append. -/
def dinsert (m : List (Str × Str)) (k v : Str) : List (Str × Str) :=
  if m.any (fun p => decide (p.1 = k)) then
    m.map (fun p => if p.1 = k then (k, v) else p)
  else m ++ [(k, v)]

/-- The feats-parsing loop (lines 85-90): each `|`-separated element that
contains `=` is unpacked by `key, value = feat.split('=')`; unpacking a
split with more than two parts raises `ValueError`; elements without `=`
are skipped by the `if '=' in feat` guard. -/
def parse_feats_aux : List Str → List (Str × Str) → Except String (List (Str × Str))
  | [], acc => .ok acc
  | elt :: rest, acc =>
    if elt.contains '=' then
      match splitChar '=' elt with
      | [k, v] => parse_feats_aux rest (dinsert acc k v)
      | _ => .error "ValueError: unpack"
    else parse_feats_aux rest acc

/-- Parsing of a non-sentinel feats field (lines 85-90). -/
def parse_feats (s : Str) : Except String (List (Str × Str)) :=
  parse_feats_aux (splitChar '|' s) []

/-- The misc-parsing loop (lines 105-110): every `|`-separated element is
unpacked by `key, value = elt.split('=')` (no `in` guard here, so an
element that does not split into exactly two parts raises `ValueError`);
the stored value drops its last character (`value[:-1]`). -/
def parse_misc_aux : List Str → List (Str × Str) → Except String (List (Str × Str))
  | [], acc => .ok acc
  | elt :: rest, acc =>
    match splitChar '=' elt with
    | [k, v] => parse_misc_aux rest (dinsert acc k v.dropLast)
    | _ => .error "ValueError: unpack"

/-- Parsing of a non-"_\n" misc field (lines 105-110). -/
def parse_misc (s : Str) : Except String (List (Str × Str)) :=
  parse_misc_aux (splitChar '|' s) []

/-- Line 74-75: an incomplete line is right-padded with `'_'` fields until
it has ten fields. -/
def padTo10 (fields : List Str) : List Str :=
  fields ++ List.replicate (10 - fields.length) und

/-- Body of the per-line token construction (lines 77-112), applied to the
padded field list with the running corpus-wide counter `new_id`.  Field
evaluation order (and hence which exception wins) follows the source: the
id (`int(fields[0])`), then feats, then head, then misc. -/
def makeWord (fields : List Str) (new_id : Int) : Except String Word :=
  match parsePyInt (fields.getD 0 []) with
  | none => .error "ValueError: int"
  | some id =>
    let form := if fields.getD 1 [] = und then none else some (fields.getD 1 [])
    let lemm := if fields.getD 2 [] = und then none else some (fields.getD 2 [])
    let upos := if fields.getD 3 [] = und then none else some (fields.getD 3 [])
    let xpos := if fields.getD 4 [] = und then none else some (fields.getD 4 [])
    let featsRes : Except String (Option (List (Str × Str))) :=
      if fields.getD 5 [] = und then .ok none
      else (parse_feats (fields.getD 5 [])).map some
    match featsRes with
    | .error e => .error e
    | .ok feats =>
      let headRes : Except String (Option Int) :=
        if fields.getD 6 [] = und then .ok none
        else
          match parsePyInt (fields.getD 6 []) with
          | none => .error "ValueError: int"
          | some h => if h ≠ 0 then .ok (some (new_id + (h - id))) else .ok (some h)
      match headRes with
      | .error e => .error e
      | .ok head =>
        let deprel := if fields.getD 7 [] = und then none else some (fields.getD 7 [])
        let deps := if fields.getD 8 [] = und then none else some (fields.getD 8 [])
        let miscRes : Except String (Option (List (Str × Str))) :=
          if fields.getD 9 [] = ['_', '\n'] then .ok none
          else (parse_misc (fields.getD 9 [])).map some
        match miscRes with
        | .error e => .error e
        | .ok misc =>
          .ok { id := new_id, form := form, lemm := lemm, upos := upos,
                xpos := xpos, feats := feats, head := head, deprel := deprel,
                deps := deps, misc := misc }

/-- The line loop of `extract_tokens` (lines 63-114): lines whose first
field is not a pure digit run followed by a tab are skipped without
advancing the counter; each qualifying line is split on tabs, padded to ten
fields and turned into a `Word` carrying the counter as its new id. -/
def extractAux : List Str → Int → Except String (List Word)
  | [], _ => .ok []
  | l :: rest, c =>
    if regex_id_match l then
      match makeWord (padTo10 (splitChar '\t' l)) c with
      | .error e => .error e
      | .ok w =>
        match extractAux rest (c + 1) with
        | .error e => .error e
        | .ok ws => .ok (w :: ws)
    else extractAux rest c

/-- `extract_tokens` (lines 49-115) on the list of lines of the file
(`f.readlines()` keeps the trailing newline of each line). -/
def extract_tokens (lines : List Str) : Except String (List Word) :=
  extractAux lines 1

/-- Length of the common run of form-equal tokens of `a` starting at index
`i` and of `b` starting at index `j`, staying below `bhi` on the `b` side;
the `a`-side bound `ahi` is passed as the fuel `ahi - i`, so the run also
stays below `ahi`. -/
def runLen (a b : List Word) (bhi : Nat) : Nat → Nat → Nat → Nat
  | 0, _, _ => 0
  | fuel + 1, i, j =>
    if j < bhi then
      match a.get? i, b.get? j with
      | some x, some y => if formEq x y then runLen a b bhi fuel (i + 1) (j + 1) + 1 else 0
      | _, _ => 0
    else 0

/-- The candidate start positions scanned for the longest match inside the
window `a[alo:ahi]`, `b[blo:bhi]`, in ascending `(i, j)` order. -/
def candidates (alo ahi blo bhi : Nat) : List (Nat × Nat) :=
  (List.range' alo (ahi - alo)).flatMap
    (fun i => (List.range' blo (bhi - blo)).map (fun j => (i, j)))

/-- One step of the longest-match scan: a candidate replaces the current
best only when its run is strictly longer, so the first candidate (in
ascending `(i, j)` order) attaining the maximal length wins. -/
def flmStep (a b : List Word) (ahi bhi : Nat) (best : Nat × Nat × Nat)
    (c : Nat × Nat) : Nat × Nat × Nat :=
  let k := runLen a b bhi (ahi - c.1) c.1 c.2
  if best.2.2 < k then (c.1, c.2, k) else best

/-- `SequenceMatcher.find_longest_match` on the window `a[alo:ahi]`,
`b[blo:bhi]` with no junk and `autojunk=False`: the documented contract is
to return the longest matching block, preferring, among maximal blocks, the
one starting earliest in `a` and then earliest in `b`; `(alo, blo, 0)` when
there is no nonempty match. -/
def find_longest_match (a b : List Word) (alo ahi blo bhi : Nat) : Nat × Nat × Nat :=
  (candidates alo ahi blo bhi).foldl (flmStep a b ahi bhi) (alo, blo, 0)

/-- `SequenceMatcher.get_matching_blocks` restricted to a window (the
recursive divide-and-conquer around each longest match); `fuel` bounds the
recursion depth and any value at least `(ahi - alo) + (bhi - blo)` is
enough. -/
def mblocks (a b : List Word) : Nat → Nat → Nat → Nat → Nat → List (Nat × Nat × Nat)
  | 0, _, _, _, _ => []
  | fuel + 1, alo, ahi, blo, bhi =>
    let m := find_longest_match a b alo ahi blo bhi
    if m.2.2 = 0 then []
    else
      mblocks a b fuel alo m.1 blo m.2.1 ++
        m :: mblocks a b fuel (m.1 + m.2.2) ahi (m.2.1 + m.2.2) bhi

/-- The slice `l[lo:hi]`. -/
def pySlice (l : List α) (lo hi : Nat) : List α := (l.drop lo).take (hi - lo)

/-- The pairs `zip(pred[alo:ahi], gold[blo:bhi])` contributed by one
matching block (line 134). -/
def blockPairs (pred gold : List Word) (m : Nat × Nat × Nat) : List (Word × Word) :=
  List.zip (pySlice pred m.1 (m.1 + m.2.2)) (pySlice gold m.2.1 (m.2.1 + m.2.2))

/-- `get_alignment` (lines 117-137): the pairs zipped from the `equal`
opcodes of the diff.  The `equal` opcodes of `get_opcodes` are exactly the
nonempty matching blocks (adjacent-block merging changes the block list but
not the concatenation of the zipped slices). -/
def get_alignment (pred gold : List Word) : List (Word × Word) :=
  (mblocks pred gold (pred.length + gold.length) 0 pred.length 0 gold.length).flatMap
    (blockPairs pred gold)

/-- `compute_tokenization_score` (lines 139-159): correct pairs over the
gold-token count; dividing by a zero gold count raises
`ZeroDivisionError`. -/
def compute_tokenization_score (token_pred token_gold : List Word) : Except String ℚ :=
  let alignment := get_alignment token_pred token_gold
  let nb_correct := alignment.countP (fun pr => decide (pr.1.form = pr.2.form))
  let total := token_gold.length
  if total = 0 then .error "ZeroDivisionError" else .ok ((nb_correct : ℚ) / (total : ℚ))

/-- `compute_accuracy` (lines 161-188): pairs whose predicted UPOS is
present and equal to the gold UPOS, or whose gold UPOS is absent, over the
number of aligned pairs; an empty alignment raises `ZeroDivisionError`. -/
def compute_accuracy (token_pred token_gold : List Word) : Except String ℚ :=
  let alignment := get_alignment token_pred token_gold
  let total := alignment.length
  let nb_correct := alignment.countP
    (fun pr => (pr.1.upos.isSome && decide (pr.1.upos = pr.2.upos)) || pr.2.upos.isNone)
  if total = 0 then .error "ZeroDivisionError" else .ok ((nb_correct : ℚ) / (total : ℚ))

/-- Python list indexing `tokens[idx]` for an in-range index, including the
negative-index wrap-around `tokens[-k] = tokens[len - k]`. -/
def pyElem (tokens : List Word) (idx : Int) : Word :=
  if 0 ≤ idx then tokens.getD idx.toNat default
  else tokens.getD ((tokens.length : Int) + idx).toNat default

/-- The synthetic root governor `Word(**{'id': 0, 'form': ''})`
(line 248). -/
def rootWord : Word :=
  { id := 0, form := some [], lemm := none, upos := none, xpos := none,
    feats := none, head := none, deprel := none, deps := none, misc := none }

/-- The leftward governor scan of `get_head_from_id` (lines 251-258):
`index = i - 1; current = tokens[index]; while head < current.id: index -= 1;
current = tokens[index]`.  An index below `-len` raises `IndexError`; the
fuel only bounds the recursion and `2 * len + 2` steps always suffice. -/
def scanLeft (tokens : List Word) (h : Int) : Nat → Int → Except String Word
  | 0, _ => .error "RecursionError"
  | fuel + 1, idx =>
    if -(tokens.length : Int) ≤ idx ∧ idx < (tokens.length : Int) then
      if h < (pyElem tokens idx).id then scanLeft tokens h fuel (idx - 1)
      else .ok (pyElem tokens idx)
    else .error "IndexError"

/-- The rightward governor scan of `get_head_from_id` (lines 259-266). -/
def scanRight (tokens : List Word) (h : Int) : Nat → Int → Except String Word
  | 0, _ => .error "RecursionError"
  | fuel + 1, idx =>
    if -(tokens.length : Int) ≤ idx ∧ idx < (tokens.length : Int) then
      if h > (pyElem tokens idx).id then scanRight tokens h fuel (idx + 1)
      else .ok (pyElem tokens idx)
    else .error "IndexError"

/-- `get_head_from_id` (lines 228-269).  The first token whose id matches
triggers the body: `None` head gives `None`; head `0` gives the synthetic
root; otherwise a directional scan.  When `head == id` neither scan runs
and `'form' in current_token.__dict__` dereferences `None`, raising
`AttributeError`.  Every word this program stores has a `form` attribute,
so the line-267 presence test succeeds on any scanned token. -/
def get_head_from_id (tokens : List Word) (token_id : Int) : Except String (Option Word) :=
  match tokens.findIdx? (fun t => decide (t.id = token_id)) with
  | none => .ok none
  | some i =>
    let t := tokens.getD i default
    match t.head with
    | none => .ok none
    | some h =>
      if h = 0 then .ok (some rootWord)
      else if h < t.id then
        match scanLeft tokens h (2 * tokens.length + 2) ((i : Int) - 1) with
        | .error e => .error e
        | .ok g => .ok (some g)
      else if h > t.id then
        match scanRight tokens h (2 * tokens.length + 2) ((i : Int) + 1) with
        | .error e => .error e
        | .ok g => .ok (some g)
      else .error "AttributeError"

/-- The leftward loop of `compute_diff_word_head` (lines 297-301):
`while tokens[i].id > w.head and i >= 0: res -= 1; i -= 1` followed by the
final range check on `i`.  At `i = -1` the access wraps to the last token
and the `i >= 0` conjunct ends the loop, so the final check returns `None`
(the governor is outside the list to the left). -/
def cdLeft (tokens : List Word) (h : Int) : Nat → Int → Int → Except String (Option Int)
  | 0, _, _ => .error "RecursionError"
  | fuel + 1, i, res =>
    if -(tokens.length : Int) ≤ i ∧ i < (tokens.length : Int) then
      if h < (pyElem tokens i).id ∧ 0 ≤ i then cdLeft tokens h fuel (i - 1) (res - 1)
      else if 0 ≤ i ∧ i < (tokens.length : Int) then .ok (some res)
      else .ok none
    else .error "IndexError"

/-- The rightward loop of `compute_diff_word_head` (lines 302-309):
`while tokens[i].id < w.head and i < len(tokens): res += 1; i += 1`.  The
element access is evaluated before the bound test, so reaching `i = len`
raises `IndexError`. -/
def cdRight (tokens : List Word) (h : Int) : Nat → Int → Int → Except String (Option Int)
  | 0, _, _ => .error "RecursionError"
  | fuel + 1, i, res =>
    if -(tokens.length : Int) ≤ i ∧ i < (tokens.length : Int) then
      if (pyElem tokens i).id < h ∧ i < (tokens.length : Int) then
        cdRight tokens h fuel (i + 1) (res + 1)
      else if 0 ≤ i ∧ i < (tokens.length : Int) then .ok (some res)
      else .ok none
    else .error "IndexError"

/-- `compute_diff_word_head` (lines 271-309): find the first token with the
word's id (`ValueError` if absent), then walk toward the governor's id and
report the signed index distance, `None` when the walk leaves the list on
the left.  A `None` head makes the Python comparison `w.head < w.id` raise
`TypeError`. -/
def compute_diff_word_head (tokens : List Word) (w : Word) : Except String (Option Int) :=
  match tokens.findIdx? (fun t => decide (t.id = w.id)) with
  | none => .error "ValueError: The word is not in the list"
  | some i =>
    match w.head with
    | none => .error "TypeError"
    | some h =>
      if h < w.id then cdLeft tokens h (2 * tokens.length + 2) (i : Int) 0
      else cdRight tokens h (2 * tokens.length + 2) (i : Int) 0

deriving instance DecidableEq for Except

/-- Per-pair predicate for the UAS numerator of `compute_uas_las`
(lines 335-357): both sides have a defined head, the resolved governors
(looked up in the full token lists) are form-equal and not `None`, and the
index offsets to the governor computed by `compute_diff_word_head` within
the aligned sublists agree. -/
def uasHit (pred_tokens gold_tokens pred_align gold_align : List Word)
    (pr : Word × Word) : Bool :=
  pr.1.head.isSome && pr.2.head.isSome &&
  (match get_head_from_id pred_tokens pr.1.id, get_head_from_id gold_tokens pr.2.id with
   | .ok hp, .ok hg => optWordEq hp hg && hp.isSome
   | _, _ => false) &&
  decide (compute_diff_word_head pred_align pr.1 = compute_diff_word_head gold_align pr.2)

/-- Per-pair predicate for the LAS numerator (lines 359-364): the UAS
conditions plus both deprels defined and equal. -/
def lasHit (pred_tokens gold_tokens pred_align gold_align : List Word)
    (pr : Word × Word) : Bool :=
  uasHit pred_tokens gold_tokens pred_align gold_align pr &&
  pr.1.deprel.isSome && pr.2.deprel.isSome && decide (pr.1.deprel = pr.2.deprel)

/-- The counting loop of `compute_uas_las` (lines 335-364), threading the
six counters `(nb_correct_governor, nb_correct_governor_label,
nb_total_pred_uas, nb_total_gold_uas, nb_total_pred_las,
nb_total_gold_las)`.  Governor resolution runs before the counter updates
exactly as in the source; counter increments commute with the pure rest of
one iteration, so grouping them does not change values or the first raised
exception. -/
def uasLoop (pred_tokens gold_tokens pred_align gold_align : List Word) :
    List (Word × Word) → Nat × Nat × Nat × Nat × Nat × Nat →
    Except String (Nat × Nat × Nat × Nat × Nat × Nat)
  | [], acc => .ok acc
  | (p, g) :: rest, (c, cl, tp, tg, tpl, tgl) =>
    match get_head_from_id pred_tokens p.id with
    | .error e => .error e
    | .ok hp =>
      match get_head_from_id gold_tokens g.id with
      | .error e => .error e
      | .ok hg =>
        let pe := p.head.isSome
        let pel := pe && p.deprel.isSome
        let ge := g.head.isSome
        let gel := ge && g.deprel.isSome
        let tp' := if pe then tp + 1 else tp
        let tg' := if ge then tg + 1 else tg
        let tpl' := if pel then tpl + 1 else tpl
        let tgl' := if gel then tgl + 1 else tgl
        if pe && ge then
          match compute_diff_word_head pred_align p with
          | .error e => .error e
          | .ok dp =>
            match compute_diff_word_head gold_align g with
            | .error e => .error e
            | .ok dg =>
              let cg := optWordEq hp hg && hp.isSome
              let cd := decide (dp = dg)
              let c' := if cg && cd then c + 1 else c
              let cl' := if pel && gel && cg && cd && decide (p.deprel = g.deprel)
                         then cl + 1 else cl
              uasLoop pred_tokens gold_tokens pred_align gold_align rest
                (c', cl', tp', tg', tpl', tgl')
        else
          uasLoop pred_tokens gold_tokens pred_align gold_align rest
            (c, cl, tp', tg', tpl', tgl')

/-- `compute_uas_las` (lines 311-381), returning
`(UAS precision, UAS recall, UAS, LAS precision, LAS recall, LAS)`.
Each division by a zero counter raises `ZeroDivisionError`, in the order
the source computes the entries; the F1 entries are guarded by the
both-zero convention and otherwise divide by a positive sum. -/
def compute_uas_las (pred_tokens gold_tokens : List Word) :
    Except String (ℚ × ℚ × ℚ × ℚ × ℚ × ℚ) :=
  let alignment := get_alignment pred_tokens gold_tokens
  let pred_align := alignment.map Prod.fst
  let gold_align := alignment.map Prod.snd
  match uasLoop pred_tokens gold_tokens pred_align gold_align alignment (0, 0, 0, 0, 0, 0) with
  | .error e => .error e
  | .ok (c, cl, tp, tg, tpl, tgl) =>
    if tp = 0 then .error "ZeroDivisionError"
    else if tg = 0 then .error "ZeroDivisionError"
    else
      let up : ℚ := (c : ℚ) / (tp : ℚ)
      let ur : ℚ := (c : ℚ) / (tg : ℚ)
      let uf : ℚ := if up = 0 ∧ ur = 0 then 0 else 2 * up * ur / (up + ur)
      if tpl = 0 then .error "ZeroDivisionError"
      else if tgl = 0 then .error "ZeroDivisionError"
      else
        let lp : ℚ := (cl : ℚ) / (tpl : ℚ)
        let lr : ℚ := (cl : ℚ) / (tgl : ℚ)
        let lf : ℚ := if lp = 0 ∧ lr = 0 then 0 else 2 * lp * lr / (lp + lr)
        .ok (up, ur, uf, lp, lr, lf)

/-! Helper lemmas for the loader claims. -/

/-- The contiguous integer sequence `c, c+1, ..., c+n-1`. -/
def idRange (c : Int) : Nat → List Int
  | 0 => []
  | n + 1 => c :: idRange (c + 1) n

theorem makeWord_id (fields : List Str) (c : Int) (w : Word)
    (hok : makeWord fields c = .ok w) : w.id = c := by
  simp only [makeWord] at hok
  split at hok
  · exact absurd hok (by simp)
  · split at hok
    · exact absurd hok (by simp)
    · split at hok
      · exact absurd hok (by simp)
      · split at hok
        · exact absurd hok (by simp)
        · rw [Except.ok.injEq] at hok
          subst hok
          rfl

theorem extractAux_ids : ∀ (lines : List Str) (c : Int) (ws : List Word),
    extractAux lines c = .ok ws → ws.map (·.id) = idRange c ws.length := by
  intro lines
  induction lines with
  | nil => intro c ws h; rw [extractAux, Except.ok.injEq] at h; subst h; rfl
  | cons l rest ih =>
    intro c ws h
    rw [extractAux] at h
    by_cases hr : regex_id_match l
    · rw [if_pos hr] at h
      rcases hmk : makeWord (padTo10 (splitChar '\t' l)) c with e | w
      · rw [hmk] at h; exact absurd h (by simp)
      · rw [hmk] at h
        rcases haux : extractAux rest (c + 1) with e | ws'
        · rw [haux] at h; exact absurd h (by simp)
        · rw [haux, Except.ok.injEq] at h
          subst h
          have hw := makeWord_id _ _ _ hmk
          simp only [List.map_cons, List.length_cons, idRange, hw]
          rw [ih (c + 1) ws' haux]
    · rw [if_neg hr] at h
      exact ih c ws h

theorem dinsert_mem (m : List (Str × Str)) (k v : Str) (p : Str × Str)
    (hp : p ∈ dinsert m k v) : p ∈ m ∨ p = (k, v) := by
  unfold dinsert at hp
  split at hp
  · rcases List.mem_map.mp hp with ⟨q, hq, hqe⟩
    by_cases h : q.1 = k
    · right; rw [if_pos h] at hqe; exact hqe.symm
    · left; rw [if_neg h] at hqe; exact hqe ▸ hq
  · rcases List.mem_append.mp hp with h | h
    · exact Or.inl h
    · right; simpa using h

theorem parse_feats_aux_error (elts : List Str) : ∀ acc,
    (∃ e, parse_feats_aux elts acc = .error e) ↔
      ∃ elt ∈ elts, elt.contains '=' = true ∧ (splitChar '=' elt).length ≠ 2 := by
  induction elts with
  | nil => intro acc; simp [parse_feats_aux]
  | cons elt rest ih =>
    intro acc
    rw [parse_feats_aux]
    by_cases hc : elt.contains '=' = true
    · rw [if_pos hc]
      rcases hsp : splitChar '=' elt with _ | ⟨a, _ | ⟨b, _ | ⟨c, t⟩⟩⟩
      · constructor
        · intro _; exact ⟨elt, by simp, hc, by rw [hsp]; simp⟩
        · intro _; exact ⟨"ValueError: unpack", rfl⟩
      · constructor
        · intro _; exact ⟨elt, by simp, hc, by rw [hsp]; simp⟩
        · intro _; exact ⟨"ValueError: unpack", rfl⟩
      · rw [ih (dinsert acc a b)]
        constructor
        · rintro ⟨x, hx, h1, h2⟩; exact ⟨x, by simp [hx], h1, h2⟩
        · rintro ⟨x, hx, h1, h2⟩
          rcases List.mem_cons.mp hx with rfl | hx'
          · exact absurd (by rw [hsp]; rfl) h2
          · exact ⟨x, hx', h1, h2⟩
      · constructor
        · intro _; exact ⟨elt, by simp, hc, by rw [hsp]; simp⟩
        · intro _; exact ⟨"ValueError: unpack", rfl⟩
    · rw [if_neg hc, ih acc]
      constructor
      · rintro ⟨x, hx, h1, h2⟩; exact ⟨x, by simp [hx], h1, h2⟩
      · rintro ⟨x, hx, h1, h2⟩
        rcases List.mem_cons.mp hx with rfl | hx'
        · exact absurd h1 hc
        · exact ⟨x, hx', h1, h2⟩

theorem parse_feats_aux_mem (elts : List Str) : ∀ acc m,
    parse_feats_aux elts acc = .ok m → ∀ p ∈ m,
    p ∈ acc ∨ ∃ elt ∈ elts, splitChar '=' elt = [p.1, p.2] := by
  induction elts with
  | nil =>
    intro acc m h p hp
    rw [parse_feats_aux, Except.ok.injEq] at h
    subst h
    exact Or.inl hp
  | cons elt rest ih =>
    intro acc m h p hp
    rw [parse_feats_aux] at h
    by_cases hc : elt.contains '=' = true
    · rw [if_pos hc] at h
      rcases hsp : splitChar '=' elt with _ | ⟨a, _ | ⟨b, _ | ⟨cc, t⟩⟩⟩ <;> rw [hsp] at h
      · exact absurd h (by simp)
      · exact absurd h (by simp)
      · rcases ih (dinsert acc a b) m h p hp with hacc | ⟨x, hx, hxe⟩
        · rcases dinsert_mem acc a b p hacc with h' | h'
          · exact Or.inl h'
          · refine Or.inr ⟨elt, by simp, ?_⟩
            rw [hsp, h']
        · exact Or.inr ⟨x, by simp [hx], hxe⟩
      · exact absurd h (by simp)
    · rw [if_neg hc] at h
      rcases ih acc m h p hp with hacc | ⟨x, hx, hxe⟩
      · exact Or.inl hacc
      · exact Or.inr ⟨x, by simp [hx], hxe⟩

theorem makeWord_feats_error (fields : List Str) (c : Int)
    (hnd : fields.getD 5 [] ≠ und)
    (he : ∃ e, parse_feats (fields.getD 5 []) = .error e) :
    ∃ e, makeWord fields c = .error e := by
  obtain ⟨e, he⟩ := he
  rcases hp : parsePyInt (fields.getD 0 []) with _ | v
  · exact ⟨"ValueError: int", by simp only [makeWord, hp]⟩
  · refine ⟨e, ?_⟩
    simp only [makeWord, hp, if_neg hnd, he, Except.map]

/-! The claim theorems for the loader and tokenization-score boundary. -/

/-- Claim C1: the claim says `compute_tokenization_score` guards the
division by the gold-token count and reports a cannot-compute outcome on an
empty gold sequence.  The code has no such guard: `nb_correct / total` at
line 159 raises `ZeroDivisionError` whenever the gold sequence is empty.
This theorem evaluates the code at the failing input. -/
theorem tokenization_score_empty_gold_raises (pred : List Word) :
    compute_tokenization_score pred [] = .error "ZeroDivisionError" := rfl

/-- Claim C3: governor-offset invariance of loading.  For a row whose head
field is present and parses to a non-zero integer, the loaded token
satisfies `head - id = original_head - original_id`; an original head of 0
is loaded as exactly 0. -/
theorem governor_offset_preserved (fields : List Str) (c : Int) (w : Word)
    (origId origHead : Int)
    (hok : makeWord fields c = .ok w)
    (hid : parsePyInt (fields.getD 0 []) = some origId)
    (hnd : fields.getD 6 [] ≠ und)
    (hh : parsePyInt (fields.getD 6 []) = some origHead) :
    w.id = c ∧
    (origHead ≠ 0 → w.head = some (c + (origHead - origId))) ∧
    (origHead = 0 → w.head = some 0) := by
  simp only [makeWord, hid, if_neg hnd, hh] at hok
  split at hok
  · exact absurd hok (by simp)
  · split at hok
    · exact absurd hok (by simp)
    · split at hok
      · exact absurd hok (by simp)
      · rename_i fscrut fval feq hscrut hval heq2 mscrut mval meq2
        rw [Except.ok.injEq] at hok
        subst hok
        refine ⟨rfl, ?_, ?_⟩
        · intro hne
          rw [if_pos hne, Except.ok.injEq] at heq2
          simp [← heq2]
        · intro h0
          rw [if_neg (by simp [h0]), Except.ok.injEq] at heq2
          simp [← heq2, h0]

/-- Witness for C3: a concrete row `2 cat ... head 3 nsubj` loaded at
counter value 7 gets id 7 and head 7 + (3 - 2) = 8, preserving the offset
+1 to the governor. -/
theorem governor_offset_preserved_witness :
    makeWord (padTo10 (splitChar '\t' ("2\tcat\t_\t_\t_\t_\t3\tnsubj\t_\t_\n").data)) 7 =
      .ok { id := 7, form := some ['c', 'a', 't'], lemm := none, upos := none,
            xpos := none, feats := none, head := some 8,
            deprel := some ['n', 's', 'u', 'b', 'j'], deps := none, misc := none } ∧
    ((7 : Int) + ((3 : Int) - 2) = 8 ∧ (3 : Int) ≠ 0) ∧
    (some 8 : Option Int) = some (7 + (3 - 2)) :=
  ⟨by decide, ⟨by decide, by decide⟩,
    by
      have h := governor_offset_preserved
        (padTo10 (splitChar '\t' ("2\tcat\t_\t_\t_\t_\t3\tnsubj\t_\t_\n").data)) 7
        { id := 7, form := some ['c', 'a', 't'], lemm := none, upos := none,
          xpos := none, feats := none, head := some 8,
          deprel := some ['n', 's', 'u', 'b', 'j'], deps := none, misc := none }
        2 3 (by decide) (by decide) (by decide) (by decide)
      exact (h.2.1 (by decide)).symm ▸ rfl⟩

/-- Claim C5: the ids assigned by `extract_tokens` form the contiguous
sequence 1, 2, ..., n in file order, and a line whose first field is not a
pure digit string followed by a tab produces no token and does not advance
the counter. -/
theorem extract_tokens_ids_contiguous :
    (∀ (lines : List Str) (ws : List Word), extract_tokens lines = .ok ws →
      ws.map (·.id) = idRange 1 ws.length) ∧
    (∀ (l : Str) (lines : List Str), regex_id_match l = false →
      extract_tokens (l :: lines) = extract_tokens lines) := by
  constructor
  · intro lines ws h
    exact extractAux_ids lines 1 ws h
  · intro l lines h
    simp only [extract_tokens, extractAux, h, if_neg]
    simp

/-- Witness for C5: a four-line file whose second and fourth lines qualify
(original ids 1 and 3) loads as ids 1, 2; the non-qualifying comment line
is skipped without advancing the counter. -/
theorem extract_tokens_ids_contiguous_witness :
    extract_tokens ["foo\n".data, "1\ta\t_\t_\t_\t_\t_\t_\t_\t_\n".data,
        "# c\n".data, "3\tb\t_\t_\t_\t_\t_\t_\t_\t_\n".data] =
      .ok [{ id := 1, form := some ['a'], lemm := none, upos := none, xpos := none,
             feats := none, head := none, deprel := none, deps := none, misc := none },
           { id := 2, form := some ['b'], lemm := none, upos := none, xpos := none,
             feats := none, head := none, deprel := none, deps := none, misc := none }] ∧
    ([{ id := 1, form := some ['a'], lemm := none, upos := none, xpos := none,
        feats := none, head := none, deprel := none, deps := none, misc := none },
      { id := 2, form := some ['b'], lemm := none, upos := none, xpos := none,
        feats := none, head := none, deprel := none, deps := none,
        misc := none }] : List Word).map (·.id) = idRange 1 2 ∧
    regex_id_match ("foo\n").data = false ∧
    extract_tokens ["foo\n".data, "9\tz\n".data] = extract_tokens ["9\tz\n".data] :=
  ⟨by decide,
    extract_tokens_ids_contiguous.1
      ["foo\n".data, "1\ta\t_\t_\t_\t_\t_\t_\t_\t_\n".data,
        "# c\n".data, "3\tb\t_\t_\t_\t_\t_\t_\t_\t_\n".data]
      [{ id := 1, form := some ['a'], lemm := none, upos := none, xpos := none,
         feats := none, head := none, deprel := none, deps := none, misc := none },
       { id := 2, form := some ['b'], lemm := none, upos := none, xpos := none,
         feats := none, head := none, deprel := none, deps := none, misc := none }]
      (by decide),
    by decide,
    extract_tokens_ids_contiguous.2 ("foo\n").data ["9\tz\n".data] (by decide)⟩

/-- Claim C8: the claim says a digit-id line with fewer than ten fields is
right-padded and loads with the missing attributes absent.  The padding
does happen (line 74-75), but the padded misc field is `'_'`, not the
`"_\n"` the line-102 sentinel test expects, so the misc unpacking
`key, value = elt.split('=')` at line 109 raises `ValueError` and
`extract_tokens` aborts instead of producing a token. -/
theorem short_line_misc_unpack_raises :
    extract_tokens ["1\tword\n".data] = .error "ValueError: unpack" := by decide

/-- Claim C9 (amended): a feats element containing `=` but not splitting
into exactly two parts is a fatal load error; a feats element without `=`
is silently skipped rather than fatal (every parsed entry comes from an
element that splits exactly as `key=value`); a fatal feats parse makes the
whole `makeWord` (and hence `extract_tokens`) abort with an error. -/
theorem feats_malformed_amended :
    (∀ s : Str, (∃ e, parse_feats s = .error e) ↔
      ∃ elt ∈ splitChar '|' s, elt.contains '=' = true ∧ (splitChar '=' elt).length ≠ 2) ∧
    (∀ (s : Str) (m : List (Str × Str)), parse_feats s = .ok m →
      ∀ p ∈ m, ∃ elt ∈ splitChar '|' s, splitChar '=' elt = [p.1, p.2]) ∧
    (∀ (fields : List Str) (c : Int), fields.getD 5 [] ≠ und →
      (∃ e, parse_feats (fields.getD 5 []) = .error e) →
      ∃ e, makeWord fields c = .error e) := by
  refine ⟨fun s => parse_feats_aux_error _ _, ?_, makeWord_feats_error⟩
  intro s m h p hp
  rcases parse_feats_aux_mem (splitChar '|' s) [] m h p hp with h' | h'
  · exact absurd h' (by simp)
  · exact h'

/-- Witness for C9: the feats field `A=B|Foo=1=2` has an element with two
`=` separators, so parsing it fails. -/
theorem feats_malformed_amended_witness :
    (∃ elt ∈ splitChar '|' ("A=B|Foo=1=2").data,
      elt.contains '=' = true ∧ (splitChar '=' elt).length ≠ 2) ∧
    (∃ e, parse_feats ("A=B|Foo=1=2").data = .error e) :=
  ⟨by decide, (feats_malformed_amended.1 _).mpr (by decide)⟩

/-- Counterexample for C9 as stated: a feats field consisting of the single
element `Foo` (no `=`) is not fatal — the line loads successfully with an
empty feats mapping instead of aborting. -/
theorem feats_no_eq_not_fatal :
    extract_tokens ["1\tx\t_\t_\t_\tFoo\t_\t_\t_\t_\n".data] =
      .ok [{ id := 1, form := some ['x'], lemm := none, upos := none, xpos := none,
             feats := some [], head := none, deprel := none, deps := none,
             misc := none }] := by
  decide

/-! Alignment and scorer lemmas. -/

theorem runLen_le_fuel (a b : List Word) (bhi : Nat) :
    ∀ fuel i j, runLen a b bhi fuel i j ≤ fuel := by
  intro fuel
  induction fuel with
  | zero => intro i j; rw [runLen]
  | succ n ih =>
    intro i j
    rw [runLen]
    split <;> try omega
    split <;> try omega
    split <;> try omega
    exact Nat.succ_le_succ (ih _ _)

theorem runLen_le_right (a b : List Word) (bhi : Nat) :
    ∀ fuel i j, runLen a b bhi fuel i j ≤ bhi - j := by
  intro fuel
  induction fuel with
  | zero => intro i j; rw [runLen]; omega
  | succ n ih =>
    intro i j
    rw [runLen]
    split <;> try omega
    split <;> try omega
    split <;> try omega
    have := ih (i + 1) (j + 1)
    omega

theorem runLen_get (a b : List Word) (bhi : Nat) :
    ∀ fuel i j t, t < runLen a b bhi fuel i j →
      ∃ x y, a.get? (i + t) = some x ∧ b.get? (j + t) = some y ∧ formEq x y = true := by
  intro fuel
  induction fuel with
  | zero => intro i j t ht; rw [runLen] at ht; omega
  | succ n ih =>
    intro i j t ht
    rw [runLen] at ht
    split at ht
    · split at ht
      · rename_i x y heqx heqy
        split at ht
        · rcases t with _ | t
          · exact ⟨x, y, by simpa using heqx, by simpa using heqy, by assumption⟩
          · rcases ih (i + 1) (j + 1) t (by omega) with ⟨x', y', h1, h2, h3⟩
            refine ⟨x', y', ?_, ?_, h3⟩
            · rw [show i + (t + 1) = i + 1 + t by omega]; exact h1
            · rw [show j + (t + 1) = j + 1 + t by omega]; exact h2
        · omega
      · omega
    · omega

theorem candidates_mem (alo ahi blo bhi : Nat) (c : Nat × Nat)
    (hc : c ∈ candidates alo ahi blo bhi) :
    alo ≤ c.1 ∧ c.1 < ahi ∧ blo ≤ c.2 ∧ c.2 < bhi := by
  rcases List.mem_flatMap.mp hc with ⟨i, hi, hmap⟩
  rcases List.mem_map.mp hmap with ⟨j, hj, rfl⟩
  rcases List.mem_range'_1.mp hi with ⟨h1, h2⟩
  rcases List.mem_range'_1.mp hj with ⟨h3, h4⟩
  exact ⟨h1, by omega, h3, by omega⟩

/-- Structure invariant of the longest-match fold: the best triple is
either the untouched default or an in-range candidate paired with its own
run length. -/
def GoodBest (a b : List Word) (alo ahi blo bhi : Nat) (best : Nat × Nat × Nat) : Prop :=
  best = (alo, blo, 0) ∨
    (alo ≤ best.1 ∧ best.1 < ahi ∧ blo ≤ best.2.1 ∧ best.2.1 < bhi ∧
      best.2.2 = runLen a b bhi (ahi - best.1) best.1 best.2.1)

theorem flm_fold_good (a b : List Word) (alo ahi blo bhi : Nat) :
    ∀ (cs : List (Nat × Nat)) (best : Nat × Nat × Nat),
      (∀ c ∈ cs, alo ≤ c.1 ∧ c.1 < ahi ∧ blo ≤ c.2 ∧ c.2 < bhi) →
      GoodBest a b alo ahi blo bhi best →
      GoodBest a b alo ahi blo bhi (cs.foldl (flmStep a b ahi bhi) best) := by
  intro cs
  induction cs with
  | nil => intro best _ h; exact h
  | cons c rest ih =>
    intro best hmem hgood
    rw [List.foldl_cons]
    refine ih _ (fun x hx => hmem x (by simp [hx])) ?_
    rw [flmStep]
    split
    · rcases hmem c (by simp) with ⟨h1, h2, h3, h4⟩
      exact Or.inr ⟨h1, h2, h3, h4, rfl⟩
    · exact hgood

theorem find_longest_match_good (a b : List Word) (alo ahi blo bhi : Nat) :
    GoodBest a b alo ahi blo bhi (find_longest_match a b alo ahi blo bhi) := by
  rw [find_longest_match]
  exact flm_fold_good a b alo ahi blo bhi _ _
    (fun c hc => candidates_mem alo ahi blo bhi c hc) (Or.inl rfl)

/-- The facts used about a nonempty longest match: window bounds and the
pointwise form-equality of the matched run. -/
theorem find_longest_match_spec (a b : List Word) (alo ahi blo bhi i j k : Nat)
    (hm : find_longest_match a b alo ahi blo bhi = (i, j, k)) (hk : k ≠ 0) :
    alo ≤ i ∧ i < ahi ∧ blo ≤ j ∧ j < bhi ∧ i + k ≤ ahi ∧ j + k ≤ bhi ∧
      (∀ t < k, ∃ x y, a.get? (i + t) = some x ∧ b.get? (j + t) = some y ∧
        formEq x y = true) := by
  rcases find_longest_match_good a b alo ahi blo bhi with h | ⟨h1, h2, h3, h4, h5⟩
  · rw [hm] at h
    exact absurd (congrArg (fun p => p.2.2) h) hk
  · rw [hm] at h1 h2 h3 h4 h5
    simp only at h1 h2 h3 h4 h5
    have hle1 := runLen_le_fuel a b bhi (ahi - i) i j
    have hle2 := runLen_le_right a b bhi (ahi - i) i j
    rw [← h5] at hle1 hle2
    refine ⟨h1, h2, h3, h4, by omega, by omega, ?_⟩
    intro t ht
    exact runLen_get a b bhi (ahi - i) i j t (h5 ▸ ht)

theorem pySlice_length (l : List α) (lo hi : Nat) (h : hi ≤ l.length) :
    (pySlice l lo hi).length = hi - lo := by
  simp [pySlice]
  omega

theorem pySlice_getElem? (l : List α) (lo hi t : Nat) (ht : t < hi - lo) :
    (pySlice l lo hi)[t]? = l[lo + t]? := by
  rw [pySlice, List.getElem?_take, if_pos ht, List.getElem?_drop]

theorem pySlice_append (l : List α) (lo m hi : Nat) (h1 : lo ≤ m) (h2 : m ≤ hi) :
    pySlice l lo hi = pySlice l lo m ++ pySlice l m hi := by
  rw [pySlice, pySlice, pySlice]
  rw [show hi - lo = (m - lo) + (hi - m) by omega, List.take_add, List.drop_drop,
    show lo + (m - lo) = m by omega]

theorem pySlice_zero_length (l : List α) : pySlice l 0 l.length = l := by
  simp [pySlice]

theorem mblocks_spec (a b : List Word) :
    ∀ (fuel alo ahi blo bhi : Nat), (ahi - alo) + (bhi - blo) ≤ fuel →
      ahi ≤ a.length → bhi ≤ b.length →
      (((mblocks a b fuel alo ahi blo bhi).flatMap (blockPairs a b)).map
          Prod.fst).Sublist (pySlice a alo ahi) ∧
      (((mblocks a b fuel alo ahi blo bhi).flatMap (blockPairs a b)).map
          Prod.snd).Sublist (pySlice b blo bhi) ∧
      ∀ pr ∈ (mblocks a b fuel alo ahi blo bhi).flatMap (blockPairs a b),
        formEq pr.1 pr.2 = true := by
  intro fuel
  induction fuel with
  | zero =>
    intro alo ahi blo bhi hm ha hb
    rw [mblocks]
    exact ⟨List.nil_sublist _, List.nil_sublist _, by simp⟩
  | succ n ih =>
    intro alo ahi blo bhi hm ha hb
    rcases hflm : find_longest_match a b alo ahi blo bhi with ⟨i, j, k⟩
    rw [mblocks]
    simp only [hflm]
    by_cases hk : k = 0
    · rw [if_pos hk]
      exact ⟨List.nil_sublist _, List.nil_sublist _, by simp⟩
    · rw [if_neg hk]
      obtain ⟨h1, h2, h3, h4, h5, h6, hrun⟩ :=
        find_longest_match_spec a b alo ahi blo bhi i j k hflm hk
      have hiha : i ≤ a.length := by omega
      have hjb : j ≤ b.length := by omega
      obtain ⟨ihL1, ihL2, ihL3⟩ := ih alo i blo j (by omega) hiha hjb
      obtain ⟨ihR1, ihR2, ihR3⟩ := ih (i + k) ahi (j + k) bhi (by omega) ha hb
      have hlen1 : (pySlice a i (i + k)).length = k := by
        rw [pySlice_length a i (i + k) (by omega)]; omega
      have hlen2 : (pySlice b j (j + k)).length = k := by
        rw [pySlice_length b j (j + k) (by omega)]; omega
      have hmid1 : (blockPairs a b (i, j, k)).map Prod.fst = pySlice a i (i + k) := by
        rw [blockPairs]
        exact List.map_fst_zip _ _ (by rw [hlen1, hlen2])
      have hmid2 : (blockPairs a b (i, j, k)).map Prod.snd = pySlice b j (j + k) := by
        rw [blockPairs]
        exact List.map_snd_zip _ _ (by rw [hlen1, hlen2])
      have hsplit_a : pySlice a alo ahi =
          (pySlice a alo i ++ pySlice a i (i + k)) ++ pySlice a (i + k) ahi := by
        rw [← pySlice_append a alo i (i + k) h1 (by omega),
          ← pySlice_append a alo (i + k) ahi (by omega) (by omega)]
      have hsplit_b : pySlice b blo bhi =
          (pySlice b blo j ++ pySlice b j (j + k)) ++ pySlice b (j + k) bhi := by
        rw [← pySlice_append b blo j (j + k) h3 (by omega),
          ← pySlice_append b blo (j + k) bhi (by omega) (by omega)]
      refine ⟨?_, ?_, ?_⟩
      · rw [List.flatMap_append, List.flatMap_cons,
          List.map_append, List.map_append, hmid1, hsplit_a, ← List.append_assoc]
        exact List.Sublist.append (List.Sublist.append ihL1 (List.Sublist.refl _)) ihR1
      · rw [List.flatMap_append, List.flatMap_cons,
          List.map_append, List.map_append, hmid2, hsplit_b, ← List.append_assoc]
        exact List.Sublist.append (List.Sublist.append ihL2 (List.Sublist.refl _)) ihR2
      · intro pr hpr
        rw [List.flatMap_append, List.flatMap_cons] at hpr
        rcases List.mem_append.mp hpr with hl | hmr
        · exact ihL3 pr hl
        · rcases List.mem_append.mp hmr with hmid | hr
          · simp only [blockPairs] at hmid
            rcases List.mem_iff_getElem?.mp hmid with ⟨t, hte⟩
            rw [List.getElem?_zip_eq_some] at hte
            obtain ⟨hta, htb⟩ := hte
            have htk : t < k := by
              by_contra hge
              rw [List.getElem?_eq_none (by rw [hlen1]; omega)] at hta
              exact absurd hta (by simp)
            rcases hrun t htk with ⟨x, y, hax, hby, hfe⟩
            have h1' : pr.1 = x := by
              rw [pySlice_getElem? a i (i + k) t (by omega)] at hta
              rw [← List.get?_eq_getElem?, hax] at hta
              exact ((Option.some.injEq _ _).mp hta).symm
            have h2' : pr.2 = y := by
              rw [pySlice_getElem? b j (j + k) t (by omega)] at htb
              rw [← List.get?_eq_getElem?, hby] at htb
              exact ((Option.some.injEq _ _).mp htb).symm
            rw [h1', h2']
            exact hfe
          · exact ihR3 pr hr

/-- The alignment facts shared by the scoring claims: the pred components
form a sublist of `pred`, the gold components a sublist of `gold`, and
every emitted pair is form-equal. -/
theorem get_alignment_spec (pred gold : List Word) :
    ((get_alignment pred gold).map Prod.fst).Sublist pred ∧
    ((get_alignment pred gold).map Prod.snd).Sublist gold ∧
    ∀ pr ∈ get_alignment pred gold, formEq pr.1 pr.2 = true := by
  have h := mblocks_spec pred gold (pred.length + gold.length) 0 pred.length 0
    gold.length (by omega) le_rfl le_rfl
  rw [pySlice_zero_length, pySlice_zero_length] at h
  rw [get_alignment]
  exact h

/-- Claim C6: the aligned pairs preserve relative order on both sides (the
pred-side forms are a subsequence of the pred form sequence and likewise
for gold), and every emitted pair is form-equal, absent forms included;
unmatched tokens simply contribute no pair. -/
theorem alignment_subsequence_formEq (pred gold : List Word) :
    ((get_alignment pred gold).map (fun pr => pr.1.form)).Sublist (pred.map (·.form)) ∧
    ((get_alignment pred gold).map (fun pr => pr.2.form)).Sublist (gold.map (·.form)) ∧
    ∀ pr ∈ get_alignment pred gold, pr.1.form = pr.2.form := by
  obtain ⟨h1, h2, h3⟩ := get_alignment_spec pred gold
  refine ⟨?_, ?_, ?_⟩
  · have := h1.map (·.form)
    rw [List.map_map] at this
    exact this
  · have := h2.map (·.form)
    rw [List.map_map] at this
    exact this
  · intro pr hpr
    exact of_decide_eq_true (h3 pr hpr)

theorem runLen_all (a b : List Word) (n : Nat) (ha : a.length = n) (hb : b.length = n)
    (hform : a.map (·.form) = b.map (·.form)) :
    ∀ d i, i + d = n → runLen a b n d i i = d := by
  intro d
  induction d with
  | zero => intro i _; rw [runLen]
  | succ m ih =>
    intro i hi
    rw [runLen]
    have hia : i < a.length := by omega
    have hib : i < b.length := by omega
    rw [if_pos (by omega)]
    have hx : a.get? i = some (a.get ⟨i, hia⟩) := List.get?_eq_get hia
    have hy : b.get? i = some (b.get ⟨i, hib⟩) := List.get?_eq_get hib
    have hfe : formEq (a.get ⟨i, hia⟩) (b.get ⟨i, hib⟩) = true := by
      have h1 : (a.map (·.form))[i]? = (b.map (·.form))[i]? := by rw [hform]
      rw [List.getElem?_map, List.getElem?_map] at h1
      rw [← List.get?_eq_getElem?, ← List.get?_eq_getElem?, hx, hy] at h1
      simp only [Option.map_some'] at h1
      exact decide_eq_true ((Option.some.injEq _ _).mp h1)
    have hrec := ih (i + 1) (by omega)
    simp only [hx, hy, hfe, if_true, hrec]

theorem flm_fold_stable (a b : List Word) (ahi bhi : Nat) :
    ∀ (cs : List (Nat × Nat)) (best : Nat × Nat × Nat),
      (∀ c ∈ cs, runLen a b bhi (ahi - c.1) c.1 c.2 ≤ best.2.2) →
      cs.foldl (flmStep a b ahi bhi) best = best := by
  intro cs
  induction cs with
  | nil => intro best _; rfl
  | cons c rest ih =>
    intro best hle
    rw [List.foldl_cons, flmStep]
    rw [if_neg (by have := hle c (by simp); omega)]
    exact ih best (fun x hx => hle x (by simp [hx]))

theorem flm_full (a b : List Word) (n : Nat) (ha : a.length = n) (hb : b.length = n)
    (hform : a.map (·.form) = b.map (·.form)) (hn : n ≠ 0) :
    find_longest_match a b 0 n 0 n = (0, 0, n) := by
  obtain ⟨m, rfl⟩ : ∃ m, n = m + 1 := ⟨n - 1, by omega⟩
  rw [find_longest_match, candidates]
  rw [Nat.sub_zero, List.range'_succ 0 m 1, List.flatMap_cons, List.map_cons,
    List.cons_append, List.foldl_cons]
  have hstep : flmStep a b (m + 1) (m + 1) (0, 0, 0) (0, 0) = (0, 0, m + 1) := by
    rw [flmStep]
    simp only [Nat.sub_zero]
    rw [runLen_all a b (m + 1) ha hb hform (m + 1) 0 (by omega)]
    rw [if_pos (by omega)]
  rw [hstep]
  apply flm_fold_stable
  intro c _
  show runLen a b (m + 1) (m + 1 - c.1) c.1 c.2 ≤ m + 1
  have := runLen_le_fuel a b (m + 1) (m + 1 - c.1) c.1 c.2
  omega

theorem mblocks_left_empty (a b : List Word) :
    ∀ (f alo blo bhi : Nat), mblocks a b f alo alo blo bhi = [] := by
  intro f alo blo bhi
  cases f with
  | zero => rw [mblocks]
  | succ m =>
    rw [mblocks]
    have hflm : find_longest_match a b alo alo blo bhi = (alo, blo, 0) := by
      rw [find_longest_match, candidates, Nat.sub_self]
      rfl
    simp only [hflm]
    rfl

theorem mblocks_full (a b : List Word) (n : Nat) (ha : a.length = n) (hb : b.length = n)
    (hform : a.map (·.form) = b.map (·.form)) (hn : n ≠ 0) :
    ∀ f, f ≠ 0 → mblocks a b f 0 n 0 n = [(0, 0, n)] := by
  intro f hf
  obtain ⟨m, rfl⟩ : ∃ m, f = m + 1 := ⟨f - 1, by omega⟩
  rw [mblocks]
  simp only [flm_full a b n ha hb hform hn]
  rw [if_neg hn, mblocks_left_empty a b m 0 0 0]
  simp only [Nat.zero_add]
  rw [mblocks_left_empty a b m n n n]
  rfl

theorem get_alignment_full (pred gold : List Word)
    (hform : pred.map (·.form) = gold.map (·.form)) :
    get_alignment pred gold = List.zip pred gold := by
  have hlen : pred.length = gold.length := by
    have := congrArg List.length hform
    simpa using this
  by_cases hn : gold.length = 0
  · have hp : pred = [] := List.eq_nil_of_length_eq_zero (by omega)
    have hg : gold = [] := List.eq_nil_of_length_eq_zero hn
    subst hp hg
    rfl
  · have hm := mblocks_full pred gold gold.length hlen rfl hform hn
      (gold.length + gold.length) (by omega)
    rw [get_alignment, hlen, hm, List.flatMap_cons, List.flatMap_nil,
      List.append_nil, blockPairs]
    simp only [Nat.zero_add]
    have h1 : pySlice pred 0 gold.length = pred := by
      rw [← hlen]
      exact pySlice_zero_length pred
    have h2 : pySlice gold 0 gold.length = gold := pySlice_zero_length gold
    rw [h1, h2]

/-- Claim C7: with non-empty gold, the tokenization score is exactly the
number of aligned pairs over the number of gold tokens; identical form
sequences score exactly 1; equal-length inputs whose form sequences differ
at some position score strictly below 1. -/
theorem tokenization_score_ratio (pred gold : List Word) (hg : gold ≠ []) :
    compute_tokenization_score pred gold =
      .ok (((get_alignment pred gold).length : ℚ) / (gold.length : ℚ)) ∧
    (pred.map (·.form) = gold.map (·.form) →
      compute_tokenization_score pred gold = .ok 1) ∧
    (pred.length = gold.length → pred.map (·.form) ≠ gold.map (·.form) →
      ∃ q : ℚ, compute_tokenization_score pred gold = .ok q ∧ q < 1) := by
  have hglen : gold.length ≠ 0 := fun h => hg (List.eq_nil_of_length_eq_zero h)
  obtain ⟨hsub1, hsub2, hfe⟩ := get_alignment_spec pred gold
  have hcount : (get_alignment pred gold).countP
      (fun pr => decide (pr.1.form = pr.2.form)) = (get_alignment pred gold).length :=
    List.countP_eq_length.mpr (fun pr hpr => hfe pr hpr)
  have hmain : compute_tokenization_score pred gold =
      .ok (((get_alignment pred gold).length : ℚ) / (gold.length : ℚ)) := by
    simp only [compute_tokenization_score]
    rw [if_neg hglen, hcount]
  refine ⟨hmain, ?_, ?_⟩
  · intro hform
    have hlen : pred.length = gold.length := by
      have := congrArg List.length hform
      simpa using this
    rw [hmain, get_alignment_full pred gold hform]
    rw [List.length_zip, hlen, Nat.min_self]
    rw [div_self (by exact_mod_cast hglen)]
  · intro hlen hne
    have hL1 : (get_alignment pred gold).length ≤ gold.length := by
      have := hsub2.length_le
      rwa [List.length_map] at this
    have hlt : (get_alignment pred gold).length < gold.length := by
      rcases Nat.lt_or_ge (get_alignment pred gold).length gold.length with h | h
      · exact h
      · exfalso
        have heq : (get_alignment pred gold).length = gold.length := by omega
        have hfsteq : (get_alignment pred gold).map Prod.fst = pred :=
          hsub1.eq_of_length (by rw [List.length_map]; omega)
        have hsndeq : (get_alignment pred gold).map Prod.snd = gold :=
          hsub2.eq_of_length (by rw [List.length_map]; omega)
        apply hne
        calc pred.map (·.form)
            = ((get_alignment pred gold).map Prod.fst).map (·.form) := by rw [hfsteq]
          _ = (get_alignment pred gold).map (fun pr => pr.1.form) := by
              rw [List.map_map]
              rfl
          _ = (get_alignment pred gold).map (fun pr => pr.2.form) :=
              List.map_congr_left (fun pr hpr => of_decide_eq_true (hfe pr hpr))
          _ = ((get_alignment pred gold).map Prod.snd).map (·.form) := by
              rw [List.map_map]
              rfl
          _ = gold.map (·.form) := by rw [hsndeq]
    refine ⟨_, hmain, ?_⟩
    rw [div_lt_one (by exact_mod_cast Nat.pos_of_ne_zero hglen)]
    exact_mod_cast hlt

theorem runLen_zero (a b : List Word) (bhi : Nat)
    (hdisj : ∀ p ∈ a, ∀ g ∈ b, formEq p g = false) :
    ∀ fuel i j, runLen a b bhi fuel i j = 0 := by
  intro fuel i j
  cases fuel with
  | zero => rw [runLen]
  | succ m =>
    rw [runLen]
    split
    · rcases hx : a.get? i with _ | x <;> rcases hy : b.get? j with _ | y <;>
        simp only [hx, hy]
      rw [hdisj x (List.get?_mem hx) y (List.get?_mem hy)]
      simp
    · rfl

theorem flm_zero (a b : List Word) (alo ahi blo bhi : Nat)
    (hdisj : ∀ p ∈ a, ∀ g ∈ b, formEq p g = false) :
    find_longest_match a b alo ahi blo bhi = (alo, blo, 0) := by
  rw [find_longest_match]
  apply flm_fold_stable
  intro c _
  rw [runLen_zero a b bhi hdisj]

theorem mblocks_zero (a b : List Word)
    (hdisj : ∀ p ∈ a, ∀ g ∈ b, formEq p g = false) :
    ∀ (fuel alo ahi blo bhi : Nat), mblocks a b fuel alo ahi blo bhi = [] := by
  intro fuel alo ahi blo bhi
  cases fuel with
  | zero => rw [mblocks]
  | succ m =>
    rw [mblocks]
    simp only [flm_zero a b alo ahi blo bhi hdisj]
    rfl

theorem get_alignment_zero (pred gold : List Word)
    (hdisj : ∀ p ∈ pred, ∀ g ∈ gold, formEq p g = false) :
    get_alignment pred gold = [] := by
  rw [get_alignment, mblocks_zero pred gold hdisj]
  rfl

/-- Claim C2 (amended): two non-empty token sequences sharing no common
form yield an empty alignment without error, and the tokenization score is
0; but `compute_accuracy` and `compute_uas_las` then divide by a zero
denominator and raise `ZeroDivisionError` instead of completing. -/
theorem empty_alignment_behavior (pred gold : List Word) (_hp : pred ≠ []) (hg : gold ≠ [])
    (hdisj : ∀ p ∈ pred, ∀ g ∈ gold, p.form ≠ g.form) :
    get_alignment pred gold = [] ∧
    compute_tokenization_score pred gold = .ok 0 ∧
    compute_accuracy pred gold = .error "ZeroDivisionError" ∧
    compute_uas_las pred gold = .error "ZeroDivisionError" := by
  have hdisj' : ∀ p ∈ pred, ∀ g ∈ gold, formEq p g = false := by
    intro p hpm g hgm
    exact decide_eq_false (hdisj p hpm g hgm)
  have halign := get_alignment_zero pred gold hdisj'
  have hglen : gold.length ≠ 0 := fun h => hg (List.eq_nil_of_length_eq_zero h)
  refine ⟨halign, ?_, ?_, ?_⟩
  · simp only [compute_tokenization_score, halign, List.countP_nil]
    rw [if_neg hglen]
    norm_num
  · simp only [compute_accuracy, halign, List.length_nil]
    rfl
  · simp only [compute_uas_las, halign, List.map_nil, uasLoop]
    rfl

theorem cdLeft_ne_valueerror (tokens : List Word) (h : Int) :
    ∀ (fuel : Nat) (i res : Int),
      cdLeft tokens h fuel i res ≠ .error "ValueError: The word is not in the list" := by
  intro fuel
  induction fuel with
  | zero => intro i res; rw [cdLeft]; simp
  | succ m ih =>
    intro i res
    rw [cdLeft]
    split
    · split
      · exact ih (i - 1) (res - 1)
      · split <;> simp
    · simp

theorem cdRight_ne_valueerror (tokens : List Word) (h : Int) :
    ∀ (fuel : Nat) (i res : Int),
      cdRight tokens h fuel i res ≠ .error "ValueError: The word is not in the list" := by
  intro fuel
  induction fuel with
  | zero => intro i res; rw [cdRight]; simp
  | succ m ih =>
    intro i res
    rw [cdRight]
    split
    · split
      · exact ih (i + 1) (res + 1)
      · split <;> simp
    · simp

theorem diff_word_head_valueerror_aux (tokens : List Word) (w : Word) :
    compute_diff_word_head tokens w = .error "ValueError: The word is not in the list" ↔
      ∀ t ∈ tokens, t.id ≠ w.id := by
  rcases hf : tokens.findIdx? (fun t => decide (t.id = w.id)) with _ | i
  · rw [List.findIdx?_eq_none_iff] at hf
    constructor
    · intro _ t ht
      exact of_decide_eq_false (hf t ht)
    · intro _
      rw [compute_diff_word_head, List.findIdx?_eq_none_iff.mpr hf]
  · constructor
    · intro hve
      exfalso
      rcases hh : w.head with _ | hv
      · simp only [compute_diff_word_head, hf, hh] at hve
        exact absurd hve (by decide)
      · simp only [compute_diff_word_head, hf, hh] at hve
        by_cases hlt : hv < w.id
        · rw [if_pos hlt] at hve
          exact cdLeft_ne_valueerror tokens hv _ _ _ hve
        · rw [if_neg hlt] at hve
          exact cdRight_ne_valueerror tokens hv _ _ _ hve
    · intro hall
      exfalso
      have hn : tokens.findIdx? (fun t => decide (t.id = w.id)) = none :=
        List.findIdx?_eq_none_iff.mpr (fun x hx => decide_eq_false (hall x hx))
      rw [hf] at hn
      exact absurd hn (by simp)

theorem c10_second_aux (pred gold : List Word) :
    ∀ pr ∈ get_alignment pred gold,
      compute_diff_word_head ((get_alignment pred gold).map Prod.fst) pr.1 ≠
        .error "ValueError: The word is not in the list" ∧
      compute_diff_word_head ((get_alignment pred gold).map Prod.snd) pr.2 ≠
        .error "ValueError: The word is not in the list" := by
  intro pr hpr
  constructor
  · intro hve
    exact absurd rfl
      ((diff_word_head_valueerror_aux _ _).mp hve pr.1 (List.mem_map_of_mem _ hpr))
  · intro hve
    exact absurd rfl
      ((diff_word_head_valueerror_aux _ _).mp hve pr.2 (List.mem_map_of_mem _ hpr))

def cxA : Word :=
  { id := 1, form := some ['x'], lemm := none, upos := none, xpos := none,
    feats := none, head := some 2, deprel := none, deps := none, misc := none }

def cxB : Word :=
  { id := 2, form := some ['y'], lemm := none, upos := none, xpos := none,
    feats := none, head := some 0, deprel := none, deps := none, misc := none }

def cxB' : Word :=
  { id := 2, form := some ['z'], lemm := none, upos := none, xpos := none,
    feats := none, head := some 0, deprel := none, deps := none, misc := none }

/-- Counterexample for C10 as stated: the first tokens of prediction and
gold align (forms `x`), the second tokens do not (`y` vs `z`), so the
aligned sublist passed to `compute_diff_word_head` is just `[cxA]` while
`cxA`'s governor id 2 lies beyond it; the rightward walk runs off the end
of the list and `compute_uas_las` raises `IndexError` instead of returning
normally. -/
theorem uas_las_indexerror_counterexample :
    get_alignment [cxA, cxB] [cxA, cxB'] = [(cxA, cxA)] ∧
    compute_diff_word_head [cxA] cxA = .error "IndexError" ∧
    compute_uas_las [cxA, cxB] [cxA, cxB'] = .error "IndexError" := by decide

theorem uasLoop_counts (P G pa ga : List Word) :
    ∀ (l : List (Word × Word)) (c cl tp tg tpl tgl c' cl' tp' tg' tpl' tgl' : Nat),
      uasLoop P G pa ga l (c, cl, tp, tg, tpl, tgl) = .ok (c', cl', tp', tg', tpl', tgl') →
      c' = c + l.countP (uasHit P G pa ga) ∧
      cl' = cl + l.countP (lasHit P G pa ga) ∧
      tp' = tp + l.countP (fun pr => pr.1.head.isSome) ∧
      tg' = tg + l.countP (fun pr => pr.2.head.isSome) := by
  intro l
  induction l with
  | nil =>
    intro c cl tp tg tpl tgl c' cl' tp' tg' tpl' tgl' h
    rw [uasLoop, Except.ok.injEq] at h
    obtain ⟨rfl, rfl, rfl, rfl, rfl, rfl⟩ := h
    simp
  | cons pg rest ih =>
    rcases pg with ⟨p, g⟩
    intro c cl tp tg tpl tgl c' cl' tp' tg' tpl' tgl' h
    rw [uasLoop] at h
    rcases hhp : get_head_from_id P p.id with e | hp <;> rw [hhp] at h
    · exact absurd h (by simp)
    rcases hhg : get_head_from_id G g.id with e | hg <;> rw [hhg] at h
    · exact absurd h (by simp)
    simp only at h
    by_cases hpg : (p.head.isSome && g.head.isSome) = true
    · rw [if_pos hpg] at h
      rcases hdp : compute_diff_word_head pa p with e | dp <;> rw [hdp] at h
      · exact absurd h (by simp)
      rcases hdg : compute_diff_word_head ga g with e | dg <;> rw [hdg] at h
      · exact absurd h (by simp)
      simp only at h
      obtain ⟨hc, hcl, htp, htg⟩ := ih _ _ _ _ _ _ _ _ _ _ _ _ h
      have hpe : p.head.isSome = true := by
        rcases Bool.and_eq_true_iff.mp hpg with ⟨h1, _⟩; exact h1
      have hge : g.head.isSome = true := by
        rcases Bool.and_eq_true_iff.mp hpg with ⟨_, h2⟩; exact h2
      have huas : uasHit P G pa ga (p, g) =
          ((optWordEq hp hg && hp.isSome) && decide (dp = dg)) := by
        simp [uasHit, hpe, hge, hhp, hhg, hdp, hdg]
      have hlas : lasHit P G pa ga (p, g) =
          ((p.deprel.isSome && g.deprel.isSome) &&
            ((optWordEq hp hg && hp.isSome) && decide (dp = dg)) &&
            decide (p.deprel = g.deprel)) := by
        simp [lasHit, huas, Bool.and_comm, Bool.and_left_comm, Bool.and_assoc]
      rw [List.countP_cons, List.countP_cons, List.countP_cons, List.countP_cons]
      rw [huas, hlas]
      refine ⟨?_, ?_, ?_, ?_⟩
      · rw [hc]
        cases hb : ((optWordEq hp hg && hp.isSome) && decide (dp = dg)) <;>
          simp [hb] <;> omega
      · rw [hcl]
        cases h1 : p.deprel.isSome <;> cases h2 : g.deprel.isSome <;>
          cases h3 : (optWordEq hp hg && hp.isSome) <;> cases h4 : decide (dp = dg) <;>
          cases h5 : decide (p.deprel = g.deprel) <;>
          simp [h1, h2, h3, h4, h5, hpe, hge] <;> omega
      · rw [htp]
        simp [hpe]
        omega
      · rw [htg]
        simp [hge]
        omega
    · rw [if_neg hpg] at h
      obtain ⟨hc, hcl, htp, htg⟩ := ih _ _ _ _ _ _ _ _ _ _ _ _ h
      have huas : uasHit P G pa ga (p, g) = false := by
        cases ha : p.head.isSome <;> cases hb : g.head.isSome <;>
          simp [uasHit, ha, hb] <;> simp [ha, hb] at hpg
      have hlas : lasHit P G pa ga (p, g) = false := by
        simp [lasHit, huas]
      rw [List.countP_cons, List.countP_cons, List.countP_cons, List.countP_cons,
        huas, hlas]
      refine ⟨by rw [hc]; simp, by rw [hcl]; simp, ?_, ?_⟩
      · rw [htp]
        cases hpe : p.head.isSome <;> simp [hpe] <;> omega
      · rw [htg]
        cases hge : g.head.isSome <;> simp [hge] <;> omega

/-- Claim C4: a successful run of the `compute_uas_las` counting loop
counts a pair toward the UAS numerator iff both sides define a head, the
resolved governors are form-equal and non-null, and the
`compute_diff_word_head` offsets over the aligned sublists agree; the LAS
numerator additionally requires both deprels defined and equal; the UAS
precision (resp. recall) denominator is the number of aligned pred (resp.
gold) tokens with a defined head. -/
theorem uas_las_numerator_denominator_spec (pred gold : List Word) (c cl tp tg tpl tgl : Nat)
    (h : uasLoop pred gold ((get_alignment pred gold).map Prod.fst)
        ((get_alignment pred gold).map Prod.snd) (get_alignment pred gold)
        (0, 0, 0, 0, 0, 0) = .ok (c, cl, tp, tg, tpl, tgl)) :
    c = (get_alignment pred gold).countP
        (uasHit pred gold ((get_alignment pred gold).map Prod.fst)
          ((get_alignment pred gold).map Prod.snd)) ∧
    cl = (get_alignment pred gold).countP
        (lasHit pred gold ((get_alignment pred gold).map Prod.fst)
          ((get_alignment pred gold).map Prod.snd)) ∧
    tp = (get_alignment pred gold).countP (fun pr => pr.1.head.isSome) ∧
    tg = (get_alignment pred gold).countP (fun pr => pr.2.head.isSome) := by
  obtain ⟨h1, h2, h3, h4⟩ := uasLoop_counts _ _ _ _ _ 0 0 0 0 0 0 _ _ _ _ _ _ h
  simp only [Nat.zero_add] at h1 h2 h3 h4
  exact ⟨h1, h2, h3, h4⟩

def theW : Word :=
  { id := 1, form := some ['t', 'h', 'e'], lemm := none, upos := some ['D', 'E', 'T'],
    xpos := none, feats := none, head := some 2, deprel := some ['d', 'e', 't'],
    deps := none, misc := none }

def catW : Word :=
  { id := 2, form := some ['c', 'a', 't'], lemm := none, upos := some ['N', 'O', 'U', 'N'],
    xpos := none, feats := none, head := some 3, deprel := some ['n', 's', 'u', 'b', 'j'],
    deps := none, misc := none }

def sleepsW : Word :=
  { id := 3, form := some ['s', 'l', 'e', 'e', 'p', 's'], lemm := none,
    upos := some ['V', 'E', 'R', 'B'], xpos := none, feats := none, head := some 0,
    deprel := some ['r', 'o', 'o', 't'], deps := none, misc := none }



/-- Counterexample for C2 as stated: two non-empty sequences with no common
token make both `compute_accuracy` and `compute_uas_las` raise
`ZeroDivisionError` rather than complete without error. -/
theorem disjoint_inputs_scores_raise :
    compute_accuracy
      [{ id := 1, form := some ['a'], lemm := none, upos := none, xpos := none,
         feats := none, head := none, deprel := none, deps := none, misc := none }]
      [{ id := 1, form := some ['b'], lemm := none, upos := none, xpos := none,
         feats := none, head := none, deprel := none, deps := none, misc := none }] =
      .error "ZeroDivisionError" ∧
    compute_uas_las
      [{ id := 1, form := some ['a'], lemm := none, upos := none, xpos := none,
         feats := none, head := none, deprel := none, deps := none, misc := none }]
      [{ id := 1, form := some ['b'], lemm := none, upos := none, xpos := none,
         feats := none, head := none, deprel := none, deps := none, misc := none }] =
      .error "ZeroDivisionError" := by decide

/-- Witness for C2: the amended behavior at the concrete disjoint pair of
singleton sequences. -/
theorem empty_alignment_behavior_witness :
    get_alignment
      [{ id := 1, form := some ['c'], lemm := none, upos := none, xpos := none,
         feats := none, head := none, deprel := none, deps := none, misc := none }]
      [{ id := 1, form := some ['d'], lemm := none, upos := none, xpos := none,
         feats := none, head := none, deprel := none, deps := none, misc := none }] = [] ∧
    compute_tokenization_score
      [{ id := 1, form := some ['c'], lemm := none, upos := none, xpos := none,
         feats := none, head := none, deprel := none, deps := none, misc := none }]
      [{ id := 1, form := some ['d'], lemm := none, upos := none, xpos := none,
         feats := none, head := none, deprel := none, deps := none, misc := none }] = .ok 0 ∧
    compute_accuracy
      [{ id := 1, form := some ['c'], lemm := none, upos := none, xpos := none,
         feats := none, head := none, deprel := none, deps := none, misc := none }]
      [{ id := 1, form := some ['d'], lemm := none, upos := none, xpos := none,
         feats := none, head := none, deprel := none, deps := none, misc := none }] =
      .error "ZeroDivisionError" ∧
    compute_uas_las
      [{ id := 1, form := some ['c'], lemm := none, upos := none, xpos := none,
         feats := none, head := none, deprel := none, deps := none, misc := none }]
      [{ id := 1, form := some ['d'], lemm := none, upos := none, xpos := none,
         feats := none, head := none, deprel := none, deps := none, misc := none }] =
      .error "ZeroDivisionError" :=
  empty_alignment_behavior _ _ (by decide) (by decide) (by decide)

/-- Witness for C6: a concrete alignment where the second prediction token
is dropped; the theorem's order-preservation parts and the form-equality of
the one aligned pair are instantiated. -/
theorem alignment_subsequence_formEq_witness :
    ((get_alignment
        [{ id := 1, form := some ['u'], lemm := none, upos := none, xpos := none,
           feats := none, head := none, deprel := none, deps := none, misc := none },
         { id := 2, form := some ['v'], lemm := none, upos := none, xpos := none,
           feats := none, head := none, deprel := none, deps := none, misc := none }]
        [{ id := 1, form := some ['u'], lemm := none, upos := none, xpos := none,
           feats := none, head := none, deprel := none, deps := none,
           misc := none }]).map (fun pr => pr.1.form)).Sublist
      (([{ id := 1, form := some ['u'], lemm := none, upos := none, xpos := none,
           feats := none, head := none, deprel := none, deps := none, misc := none },
         { id := 2, form := some ['v'], lemm := none, upos := none, xpos := none,
           feats := none, head := none, deprel := none, deps := none,
           misc := none }] : List Word).map (·.form)) ∧
    (({ id := 1, form := some ['u'], lemm := none, upos := none, xpos := none,
        feats := none, head := none, deprel := none, deps := none, misc := none },
      { id := 1, form := some ['u'], lemm := none, upos := none, xpos := none,
        feats := none, head := none, deprel := none, deps := none,
        misc := none }) : Word × Word).1.form =
    (({ id := 1, form := some ['u'], lemm := none, upos := none, xpos := none,
        feats := none, head := none, deprel := none, deps := none, misc := none },
      { id := 1, form := some ['u'], lemm := none, upos := none, xpos := none,
        feats := none, head := none, deprel := none, deps := none,
        misc := none }) : Word × Word).2.form :=
  ⟨(alignment_subsequence_formEq _ _).1,
    (alignment_subsequence_formEq
      [{ id := 1, form := some ['u'], lemm := none, upos := none, xpos := none,
         feats := none, head := none, deprel := none, deps := none, misc := none },
       { id := 2, form := some ['v'], lemm := none, upos := none, xpos := none,
         feats := none, head := none, deprel := none, deps := none, misc := none }]
      [{ id := 1, form := some ['u'], lemm := none, upos := none, xpos := none,
         feats := none, head := none, deprel := none, deps := none,
         misc := none }]).2.2 _ (by decide)⟩

/-- Witness for C7: identical singleton sequences score exactly 1, and a
same-length pair differing in form scores strictly below 1. -/
theorem tokenization_score_ratio_witness :
    compute_tokenization_score
      [{ id := 1, form := some ['w'], lemm := none, upos := none, xpos := none,
         feats := none, head := none, deprel := none, deps := none, misc := none }]
      [{ id := 1, form := some ['w'], lemm := none, upos := none, xpos := none,
         feats := none, head := none, deprel := none, deps := none, misc := none }] =
      .ok 1 ∧
    (∃ q : ℚ, compute_tokenization_score
      [{ id := 1, form := some ['w'], lemm := none, upos := none, xpos := none,
         feats := none, head := none, deprel := none, deps := none, misc := none }]
      [{ id := 1, form := some ['z'], lemm := none, upos := none, xpos := none,
         feats := none, head := none, deprel := none, deps := none, misc := none }] =
      .ok q ∧ q < 1) :=
  ⟨(tokenization_score_ratio _ _ (by decide)).2.1 rfl,
    (tokenization_score_ratio _ _ (by decide)).2.2 rfl (by decide)⟩

/-- Claim C10 (amended): `compute_diff_word_head` raises its `ValueError`
exactly when no token in the list carries the word's id; the lists
`compute_uas_las` passes always contain the word itself, so that error
branch is unreachable from there — but the calls may still fail with
`IndexError` (see the counterexample), so they do not always return
normally. -/
theorem diff_word_head_valueerror_spec :
    (∀ (tokens : List Word) (w : Word),
      compute_diff_word_head tokens w = .error "ValueError: The word is not in the list" ↔
        ∀ t ∈ tokens, t.id ≠ w.id) ∧
    (∀ (pred gold : List Word), ∀ pr ∈ get_alignment pred gold,
      compute_diff_word_head ((get_alignment pred gold).map Prod.fst) pr.1 ≠
        .error "ValueError: The word is not in the list" ∧
      compute_diff_word_head ((get_alignment pred gold).map Prod.snd) pr.2 ≠
        .error "ValueError: The word is not in the list") :=
  ⟨diff_word_head_valueerror_aux, c10_second_aux⟩

/-- Witness for C10: a list not containing the word's id makes the call
raise the `ValueError`. -/
theorem diff_word_head_valueerror_spec_witness :
    (∀ t ∈ ([cxB] : List Word), t.id ≠ cxA.id) ∧
    compute_diff_word_head [cxB] cxA =
      .error "ValueError: The word is not in the list" :=
  ⟨by decide, (diff_word_head_valueerror_spec.1 [cxB] cxA).mpr (by decide)⟩

/-- Witness for C4: the three-token scenario (the/cat/sleeps with heads
2, 3, root) aligned against an identical copy; the loop succeeds with all
six counters equal to 3 and the counted values match the per-pair
predicates. -/
theorem uas_las_numerator_denominator_spec_witness :
    uasLoop [theW, catW, sleepsW] [theW, catW, sleepsW]
        ((get_alignment [theW, catW, sleepsW] [theW, catW, sleepsW]).map Prod.fst)
        ((get_alignment [theW, catW, sleepsW] [theW, catW, sleepsW]).map Prod.snd)
        (get_alignment [theW, catW, sleepsW] [theW, catW, sleepsW])
        (0, 0, 0, 0, 0, 0) = .ok (3, 3, 3, 3, 3, 3) ∧
    (3 = (get_alignment [theW, catW, sleepsW] [theW, catW, sleepsW]).countP
        (uasHit [theW, catW, sleepsW] [theW, catW, sleepsW]
          ((get_alignment [theW, catW, sleepsW] [theW, catW, sleepsW]).map Prod.fst)
          ((get_alignment [theW, catW, sleepsW] [theW, catW, sleepsW]).map Prod.snd)) ∧
      3 = (get_alignment [theW, catW, sleepsW] [theW, catW, sleepsW]).countP
        (lasHit [theW, catW, sleepsW] [theW, catW, sleepsW]
          ((get_alignment [theW, catW, sleepsW] [theW, catW, sleepsW]).map Prod.fst)
          ((get_alignment [theW, catW, sleepsW] [theW, catW, sleepsW]).map Prod.snd)) ∧
      3 = (get_alignment [theW, catW, sleepsW] [theW, catW, sleepsW]).countP
        (fun pr => pr.1.head.isSome) ∧
      3 = (get_alignment [theW, catW, sleepsW] [theW, catW, sleepsW]).countP
        (fun pr => pr.2.head.isSome)) :=
  ⟨by decide,
    uas_las_numerator_denominator_spec [theW, catW, sleepsW] [theW, catW, sleepsW]
      3 3 3 3 3 3 (by decide)⟩
